import Mathlib

/-!
Shallow embedding of `torch_kinematics_tree/geometrics/utils.py` (repository
`torch_robotics`) and verification of claims about it.

Tensors are modelled per batch element: 3-vectors as `Fin 3 → ℝ`, quaternions
as `Fin 4 → ℝ`, rotation matrices as `Matrix (Fin 3) (Fin 3) ℝ`.  The
shape/broadcasting behaviour of the batched torch operations is modelled
separately by a shape calculus on `List ℕ` (torch sizes), further below.
-/

set_option linter.unusedVariables false

noncomputable section

/-- Derivative of `arccos` at `x`, from `_dacos_dx` in the source:
`(-1.0) / np.sqrt(1.0 - x * x)`. -/
def _dacos_dx (x : ℝ) : ℝ := (-1 : ℝ) / Real.sqrt (1 - x * x)

/-- First order Taylor expansion of `arccos` around `x0`, from
`_acos_linear_approximation` in the source. -/
def _acos_linear_approximation (x x0 : ℝ) : ℝ :=
  (x - x0) * _dacos_dx x0 + Real.arccos x0

/-- Elementwise value of `acos_linear_extrapolation` (source lines 252-272),
after the bound validation has passed.  The source fills the output by masks
`x_mid`, then `x_upper`, then `x_lower`; on the only possible overlap
(`x = lower = upper`) the last write (`x_lower`) wins, which the branch order
below reproduces. -/
def acos_linear_extrapolation (x : ℝ) (bounds : ℝ × ℝ) : ℝ :=
  let lower_bound := bounds.1
  let upper_bound := bounds.2
  if x ≤ lower_bound then _acos_linear_approximation x lower_bound
  else if upper_bound ≤ x then _acos_linear_approximation x upper_bound
  else Real.arccos x

/-- `acos_linear_extrapolation` including the bound validation of the source:
`none` models raising `ValueError` ("InvalidBoundsError"). -/
def acos_linear_extrapolation_checked (x : ℝ) (bounds : ℝ × ℝ) : Option ℝ :=
  if bounds.1 > bounds.2 then none
  else if bounds.1 ≤ -1 ∨ bounds.2 ≥ 1 then none
  else some (acos_linear_extrapolation x bounds)

/-- `quaternion_relative_angle` (source lines 208-215), per batch element.
`theta_cos` is the elementwise-product sum `(q1 * q2).sum(-1)`. -/
def quaternion_relative_angle (q1 q2 : Fin 4 → ℝ) (cos_bound : ℝ) : ℝ :=
  let theta_cos := q1 0 * q2 0 + q1 1 * q2 1 + q1 2 * q2 2 + q1 3 * q2 3
  if cos_bound > 0 then
    acos_linear_extrapolation theta_cos (-(1 - cos_bound), 1 - cos_bound)
  else 2 * Real.arccos theta_cos

/-- `torch.linalg.norm(v, dim=-1)` for a 3-vector. -/
def norm3 (v : Fin 3 → ℝ) : ℝ := Real.sqrt (v 0 ^ 2 + v 1 ^ 2 + v 2 ^ 2)

/-- `quaternion_to_matrix` (source lines 53-81), real part first. -/
def quaternion_to_matrix (q : Fin 4 → ℝ) : Matrix (Fin 3) (Fin 3) ℝ :=
  let r := q 0
  let i := q 1
  let j := q 2
  let k := q 3
  let two_s := 2 / (q 0 * q 0 + q 1 * q 1 + q 2 * q 2 + q 3 * q 3)
  !![1 - two_s * (j * j + k * k), two_s * (i * j - k * r), two_s * (i * k + j * r);
     two_s * (i * j + k * r), 1 - two_s * (i * i + k * k), two_s * (j * k - i * r);
     two_s * (i * k - j * r), two_s * (j * k + i * r), 1 - two_s * (i * i + j * j)]

/-- `multiply_transform` (source lines 13-20), per batch element: the
`unsqueeze(-1)`/`squeeze(-1)` pair around the matmul is exactly
matrix-vector multiplication. -/
def multiply_transform (w_rot_l : Matrix (Fin 3) (Fin 3) ℝ) (w_trans_l : Fin 3 → ℝ)
    (l_rot_c : Matrix (Fin 3) (Fin 3) ℝ) (l_trans_c : Fin 3 → ℝ) :
    Matrix (Fin 3) (Fin 3) ℝ × (Fin 3 → ℝ) :=
  (w_rot_l * l_rot_c, w_rot_l.mulVec l_trans_c + w_trans_l)

/-- `multiply_inv_transform` (source lines 23-31), per batch element. -/
def multiply_inv_transform (l_rot_w : Matrix (Fin 3) (Fin 3) ℝ) (l_trans_w : Fin 3 → ℝ)
    (l_rot_c : Matrix (Fin 3) (Fin 3) ℝ) (l_trans_c : Fin 3 → ℝ) :
    Matrix (Fin 3) (Fin 3) ℝ × (Fin 3 → ℝ) :=
  let w_rot_l := l_rot_w.transpose
  let w_trans_l := -(w_rot_l.mulVec l_trans_w)
  (w_rot_l * l_rot_c, w_rot_l.mulVec l_trans_c + w_trans_l)

/-- `transform_point` (source lines 34-37), per point: `point @ rot^T + trans`. -/
def transform_point (point : Fin 3 → ℝ) (rot : Matrix (Fin 3) (Fin 3) ℝ)
    (trans : Fin 3 → ℝ) : Fin 3 → ℝ :=
  rot.transpose.vecMul point + trans

/-- `so3_rotation_angle` (source lines 233-249), per batch element.  The `eps`
argument is accepted and unused, as in the source. -/
def so3_rotation_angle (R : Matrix (Fin 3) (Fin 3) ℝ) (eps : ℝ)
    (cos_angle : Bool) (cos_bound : ℝ) : ℝ :=
  let rot_trace := R 0 0 + R 1 1 + R 2 2
  let phi_cos := (rot_trace - 1) * (1 / 2)
  if cos_angle then phi_cos
  else if cos_bound > 0 then
    acos_linear_extrapolation phi_cos (-(1 - cos_bound), 1 - cos_bound)
  else Real.arccos phi_cos

/-- `so3_relative_angle` (source lines 228-230). -/
def so3_relative_angle (R1 R2 : Matrix (Fin 3) (Fin 3) ℝ) (eps : ℝ)
    (cos_angle : Bool) (cos_bound : ℝ) : ℝ :=
  so3_rotation_angle (R1 * R2.transpose) eps cos_angle cos_bound

/-- First three components (the position part) of an `R3S3` pose vector. -/
def positionPart (x : Fin 7 → ℝ) : Fin 3 → ℝ :=
  fun i => x ⟨i.val, Nat.lt_of_lt_of_le i.isLt (by norm_num)⟩

/-- Last four components (the quaternion part) of an `R3S3` pose vector. -/
def quaternionPart (x : Fin 7 → ℝ) : Fin 4 → ℝ :=
  fun i => x ⟨i.val + 3, Nat.add_lt_add_right i.isLt 3⟩

/-- `R3S3_distance` (source lines 199-205), per batch element.  The call to
`quaternion_relative_angle` uses that function's default `cos_bound=1e-4`.
Note the source returns `w_pos * R_distance + w_rot * T_distance` where
`R_distance` is the quaternion (rotation) angle and `T_distance` the position
norm. -/
def R3S3_distance (x_batch x_target : Fin 7 → ℝ) (w_pos w_rot : ℝ) : ℝ :=
  let R_distance :=
    quaternion_relative_angle (quaternionPart x_batch) (quaternionPart x_target) (1 / 10000)
  let T_distance := norm3 (positionPart x_batch - positionPart x_target)
  w_pos * R_distance + w_rot * T_distance

/-- `euclidean_distance` (source lines 114-145), per batch element, on the
default path (`broadcast_target=False`, `normalized_input=False`); a supplied
velocity pair models `vel_batch`/`vel_target` both non-`None`.  The source
accumulates the velocity term into `D` but then returns `w_pos * T_distance`,
which this definition reproduces. -/
def euclidean_distance (x_batch x_target : Fin 3 → ℝ)
    (vel : Option ((Fin 3 → ℝ) × (Fin 3 → ℝ))) (w_pos w_vpos : ℝ) : ℝ :=
  let T_distance := norm3 (x_batch - x_target)
  let D := w_pos * T_distance
  let D := match vel with
    | some (vel_batch, vel_target) => D + w_vpos * norm3 (vel_batch - vel_target)
    | none => D
  w_pos * T_distance

/-- Cached bound of a `MinMaxScaler` on a 2-D torch tensor: `X.min()` /
`X.max()` with no `dim` give a scalar, `X.min(dim)[0]` with `dim = -2` gives a
vector indexed by the remaining (column) axis. -/
inductive TorchBound (n : ℕ) where
  | scalar (c : ℝ)
  | rowvec (v : Fin n → ℝ)

/-- Value a cached bound broadcasts to at column `j` of an `[m, n]` tensor. -/
def TorchBound.eval {n : ℕ} : TorchBound n → Fin n → ℝ
  | scalar c, _ => c
  | rowvec v, j => v j

/-- `X.min()` over all entries of a 2-D tensor. -/
def globalMin {m n : ℕ} (X : Matrix (Fin (m + 1)) (Fin (n + 1)) ℝ) : ℝ :=
  Finset.univ.inf' ⟨(0, 0), Finset.mem_univ _⟩ fun p => X p.1 p.2

/-- `X.max()` over all entries of a 2-D tensor. -/
def globalMax {m n : ℕ} (X : Matrix (Fin (m + 1)) (Fin (n + 1)) ℝ) : ℝ :=
  Finset.univ.sup' ⟨(0, 0), Finset.mem_univ _⟩ fun p => X p.1 p.2

/-- `X.min(-2)[0]` on a 2-D tensor: per-column minimum. -/
def colMin {m n : ℕ} (X : Matrix (Fin (m + 1)) (Fin (n + 1)) ℝ) :
    Fin (n + 1) → ℝ :=
  fun j => Finset.univ.inf' ⟨0, Finset.mem_univ _⟩ fun i => X i j

/-- `X.max(-2)[0]` on a 2-D tensor: per-column maximum. -/
def colMax {m n : ℕ} (X : Matrix (Fin (m + 1)) (Fin (n + 1)) ℝ) :
    Fin (n + 1) → ℝ :=
  fun j => Finset.univ.sup' ⟨0, Finset.mem_univ _⟩ fun i => X i j

/-- State of a `MinMaxScaler` instance (source lines 85-111): lazily cached
`min`/`max` bounds and the reduction axis (`none` models `dim=None`,
`some ()` models `dim=-2`, the axis the repository uses). -/
structure MinMaxScaler (n : ℕ) where
  min : Option (TorchBound n)
  max : Option (TorchBound n)
  dim : Option Unit

/-- `MinMaxScaler.scale` (source lines 92-111) on the torch-tensor branch for
a 2-D input.  Faithful to the source: when `self.min` is unset it is computed
globally or along `dim`; when `self.max` is unset, the source re-tests
`self.max is None` (instead of `self.dim is None`), so the global
`X.detach().max()` is always taken and the `dim` branch (which would even
compute `X.detach().min(self.dim)[0]`) is dead.  Returns the updated instance
state and `(X - min) / (max - min)` with broadcasting. -/
def MinMaxScaler.scale {m n : ℕ} (s : MinMaxScaler (n + 1))
    (X : Matrix (Fin (m + 1)) (Fin (n + 1)) ℝ) :
    MinMaxScaler (n + 1) × Matrix (Fin (m + 1)) (Fin (n + 1)) ℝ :=
  let newMin : TorchBound (n + 1) :=
    match s.min with
    | some b => b
    | none =>
      match s.dim with
      | none => .scalar (globalMin X)
      | some _ => .rowvec (colMin X)
  let newMax : TorchBound (n + 1) :=
    match s.max with
    | some b => b
    | none =>
      match s.max with
      | none => .scalar (globalMax X)
      | some _ => .rowvec (colMin X)
  let X_scaled := Matrix.of fun i j =>
    (X i j - newMin.eval j) / (newMax.eval j - newMin.eval j)
  ({ s with min := some newMin, max := some newMax }, X_scaled)

end

section ShapeCalculus

/-!
Shape-level semantics of the batched torch operations: a tensor shape is its
`torch.Size` as a `List ℕ`, and each operation returns `none` exactly when
torch would raise (dimension out of range, matmul size mismatch, broadcast
mismatch).
-/

/-- Right-aligned torch broadcasting on reversed shape lists. -/
def bcastRev : List ℕ → List ℕ → Option (List ℕ)
  | [], t => some t
  | s, [] => some s
  | a :: s, b :: t =>
    (bcastRev s t).bind fun r =>
      if a = b then some (a :: r)
      else if a = 1 then some (b :: r)
      else if b = 1 then some (a :: r)
      else none

/-- Shape of an elementwise binary op (e.g. `+`) under torch broadcasting. -/
def broadcastShapes (s t : List ℕ) : Option (List ℕ) :=
  (bcastRev s.reverse t.reverse).map List.reverse

/-- Shape of `x.transpose(-1, -2)`; fails on tensors with fewer than 2 dims. -/
def transposeShape (s : List ℕ) : Option (List ℕ) :=
  match s.reverse with
  | a :: b :: rest => some ((b :: a :: rest).reverse)
  | _ => none

/-- Shape of `torch.matmul`, covering the 1-D vector special cases and
batched matrix multiplication with broadcast of the batch dimensions. -/
def matmulShape (s t : List ℕ) : Option (List ℕ) :=
  match s.reverse, t.reverse with
  | [], _ => none
  | _, [] => none
  | [m], [k] => if m = k then some [] else none
  | [m], p :: k :: tb => if m = k then some ((p :: tb).reverse) else none
  | m :: n :: sb, [k] => if m = k then some ((n :: sb).reverse) else none
  | m :: n :: sb, p :: k :: tb =>
    if m = k then (bcastRev sb tb).map fun r => (p :: n :: r).reverse else none

/-- Normalize a (possibly negative) torch dimension index against a tensor
with `len` dimensions; `none` models `IndexError: dimension out of range`. -/
def normDim (len : ℕ) (d : ℤ) : Option ℕ :=
  if 0 ≤ d ∧ d < (len : ℤ) then some d.toNat
  else if -(len : ℤ) ≤ d ∧ d < 0 then some (d + (len : ℤ)).toNat
  else none

/-- Shape of `x.unsqueeze(d)`: valid for `d ∈ [-len-1, len]`, inserting a
size-1 dimension. -/
def unsqueezeShape (s : List ℕ) (d : ℤ) : Option (List ℕ) :=
  if -((s.length : ℤ) + 1) ≤ d ∧ d ≤ (s.length : ℤ) then
    let i := (if d < 0 then d + (s.length : ℤ) + 1 else d).toNat
    some (s.take i ++ 1 :: s.drop i)
  else none

/-- Shape of `x.squeeze(d)`: removes dimension `d` if it has size 1,
otherwise returns the shape unchanged. -/
def squeezeShape (s : List ℕ) (d : ℤ) : Option (List ℕ) :=
  match normDim s.length d with
  | none => none
  | some i => if s[i]? = some 1 then some (s.eraseIdx i) else some s

/-- Shape behaviour of `multiply_transform` (source lines 13-20):
`w_rot_l @ l_rot_c` and `(w_rot_l @ l_trans_c.unsqueeze(-1)).squeeze(-1) +
w_trans_l`. -/
def multiply_transform_shape (rotW transW rotC transC : List ℕ) :
    Option (List ℕ × List ℕ) := do
  let w_rot_c ← matmulShape rotW rotC
  let u ← unsqueezeShape transC (-1)
  let mu ← matmulShape rotW u
  let sq ← squeezeShape mu (-1)
  let w_trans_c ← broadcastShapes sq transW
  return (w_rot_c, w_trans_c)

/-- Shape behaviour of `multiply_inv_transform` (source lines 23-31); note
the source unsqueezes and squeezes the fixed dimension `2` for
`l_trans_w`. -/
def multiply_inv_transform_shape (rotLW transLW rotC transC : List ℕ) :
    Option (List ℕ × List ℕ) := do
  let w_rot_l ← transposeShape rotLW
  let w_rot_c ← matmulShape w_rot_l rotC
  let u1 ← unsqueezeShape transLW 2
  let m1 ← matmulShape w_rot_l u1
  let w_trans_l ← squeezeShape m1 2
  let u2 ← unsqueezeShape transC (-1)
  let m2 ← matmulShape w_rot_l u2
  let s2 ← squeezeShape m2 (-1)
  let w_trans_c ← broadcastShapes s2 w_trans_l
  return (w_rot_c, w_trans_c)

/-- Shape behaviour of `transform_point` (source lines 34-37):
`point @ rot.transpose(-1, -2) + trans`. -/
def transform_point_shape (point rot trans : List ℕ) : Option (List ℕ) := do
  let rt ← transposeShape rot
  let mm ← matmulShape point rt
  broadcastShapes mm trans

end ShapeCalculus

section ShapeLemmas

lemma bcastRev_self : ∀ r : List ℕ, bcastRev r r = some r
  | [] => rfl
  | a :: r => by simp [bcastRev, bcastRev_self r]

lemma bcastRev_nil_right (s : List ℕ) : bcastRev s [] = some s := by
  cases s <;> rfl

lemma broadcastShapes_self (s : List ℕ) : broadcastShapes s s = some s := by
  simp [broadcastShapes, bcastRev_self]

lemma unsqueezeShape_neg_one (s : List ℕ) :
    unsqueezeShape s (-1) = some (s ++ [1]) := by
  unfold unsqueezeShape
  rw [if_pos (by constructor <;> omega)]
  norm_num

lemma getElem?_append_singleton (s : List ℕ) (a : ℕ) :
    (s ++ [a])[s.length]? = some a := by
  rw [List.getElem?_append_right (le_refl _)]
  simp

lemma eraseIdx_append_singleton (s : List ℕ) (a : ℕ) :
    (s ++ [a]).eraseIdx s.length = s := by
  induction s with
  | nil => rfl
  | cons x xs ih => simpa [List.eraseIdx] using ih

lemma normDim_neg_one (len : ℕ) (h : 0 < len) :
    normDim len (-1) = some (len - 1) := by
  unfold normDim
  rw [if_neg (by omega), if_pos (by constructor <;> omega)]
  congr 1
  omega

lemma squeezeShape_last_one (s : List ℕ) :
    squeezeShape (s ++ [1]) (-1) = some s := by
  unfold squeezeShape
  rw [normDim_neg_one _ (by simp)]
  simp only [List.length_append, List.length_cons, List.length_nil,
    Nat.add_sub_cancel]
  rw [getElem?_append_singleton, if_pos rfl, eraseIdx_append_singleton]

lemma matmulShape_append (bs : List ℕ) (n m p : ℕ) :
    matmulShape (bs ++ [n, m]) (bs ++ [m, p]) = some (bs ++ [n, p]) := by
  unfold matmulShape
  rw [show (bs ++ [n, m]).reverse = m :: n :: bs.reverse by simp,
    show (bs ++ [m, p]).reverse = p :: m :: bs.reverse by simp]
  simp [bcastRev_self]

lemma matmulShape_vec_unbatched (bs : List ℕ) (k : ℕ) :
    matmulShape (bs ++ [k]) [k, k] = some (bs ++ [k]) := by
  unfold matmulShape
  rw [show (bs ++ [k]).reverse = k :: bs.reverse by simp]
  rcases hr : bs.reverse with _ | ⟨x, xs⟩
  · have : bs = [] := by simpa using congrArg List.reverse hr
    subst this
    simp
  · have hbs : bs = xs.reverse ++ [x] := by
      rw [← List.reverse_reverse bs, hr]
      simp
    subst hbs
    simp [bcastRev_nil_right]

lemma broadcastShapes_append_singleton (bs : List ℕ) (a : ℕ) :
    broadcastShapes (bs ++ [a]) [a] = some (bs ++ [a]) := by
  simp [broadcastShapes, List.reverse_append, bcastRev, bcastRev_nil_right]

end ShapeLemmas

lemma multiply_transform_shape_batch (bs : List ℕ) :
    multiply_transform_shape (bs ++ [3, 3]) (bs ++ [3]) (bs ++ [3, 3]) (bs ++ [3])
      = some (bs ++ [3, 3], bs ++ [3]) := by
  have h1 := matmulShape_append bs 3 3 3
  have h2 := unsqueezeShape_neg_one (bs ++ [3])
  have h3 := matmulShape_append bs 3 3 1
  have h4 : squeezeShape (bs ++ [3, 1]) (-1) = some (bs ++ [3]) := by
    have h := squeezeShape_last_one (bs ++ [3])
    rw [List.append_assoc] at h
    exact h
  have h5 := broadcastShapes_self (bs ++ [3])
  simp [multiply_transform_shape, h1, h2, h3, h4, h5, List.append_assoc]

lemma transform_point_shape_batch (bs : List ℕ) :
    transform_point_shape (bs ++ [3]) [3, 3] [3] = some (bs ++ [3]) := by
  have ht : transposeShape [3, 3] = some [3, 3] := rfl
  simp [transform_point_shape, ht, matmulShape_vec_unbatched,
    broadcastShapes_append_singleton]

lemma multiply_inv_transform_shape_one_batch (b : ℕ) :
    multiply_inv_transform_shape [b, 3, 3] [b, 3] [b, 3, 3] [b, 3]
      = some ([b, 3, 3], [b, 3]) := by
  have htr : transposeShape [b, 3, 3] = some [b, 3, 3] := rfl
  have hmm : matmulShape [b, 3, 3] [b, 3, 3] = some [b, 3, 3] := by
    simpa using matmulShape_append [b] 3 3 3
  have hu1 : unsqueezeShape [b, 3] 2 = some [b, 3, 1] := rfl
  have hm1 : matmulShape [b, 3, 3] [b, 3, 1] = some [b, 3, 1] := by
    simpa using matmulShape_append [b] 3 3 1
  have hsq : squeezeShape [b, 3, 1] 2 = some [b, 3] := rfl
  have hu2 : unsqueezeShape [b, 3] (-1) = some [b, 3, 1] := rfl
  have hsq2 : squeezeShape [b, 3, 1] (-1) = some [b, 3] := rfl
  have hbc := broadcastShapes_self [b, 3]
  simp [multiply_inv_transform_shape, htr, hmm, hu1, hm1, hsq, hu2, hsq2, hbc]

/-- C5 (counterexample): with zero leading batch dimensions
`multiply_inv_transform` fails (its fixed `unsqueeze(2)` is out of range for a
1-D translation), and with two leading batch dimensions `transform_point`
fails (the point's leading dims count as matmul batch dims that do not
broadcast against the rotation's), refuting the claim that all three
operations accept any number of leading batch dimensions. -/
theorem broadcast_claim_counterexample :
    multiply_inv_transform_shape [3, 3] [3] [3, 3] [3] = none ∧
      transform_point_shape [2, 4, 3] [2, 4, 3, 3] [2, 4, 3] = none := by
  constructor <;> rfl

/-- C5 (amended): `multiply_transform` broadcasts over arbitrary leading
batch dimensions; `transform_point` accepts arbitrary leading dimensions on
the point batch when rotation and translation are unbatched; but
`multiply_inv_transform` (which unsqueezes/squeezes the fixed dimension `2`)
only accepts exactly one leading batch dimension. -/
theorem transform_broadcast_amended (bs : List ℕ) (b : ℕ) :
    multiply_transform_shape (bs ++ [3, 3]) (bs ++ [3]) (bs ++ [3, 3]) (bs ++ [3])
        = some (bs ++ [3, 3], bs ++ [3]) ∧
      transform_point_shape (bs ++ [3]) [3, 3] [3] = some (bs ++ [3]) ∧
      multiply_inv_transform_shape [b, 3, 3] [b, 3] [b, 3, 3] [b, 3]
        = some ([b, 3, 3], [b, 3]) :=
  ⟨multiply_transform_shape_batch bs, transform_point_shape_batch bs,
    multiply_inv_transform_shape_one_batch b⟩

/-- C9: with `cos_angle = true`, `so3_relative_angle` is symmetric in its two
matrix arguments, because the trace of `R1 * R2ᵀ` equals the trace of
`R2 * R1ᵀ` (for arbitrary 3x3 matrices). -/
theorem so3_relative_angle_cos_symm (R1 R2 : Matrix (Fin 3) (Fin 3) ℝ)
    (eps cos_bound : ℝ) :
    so3_relative_angle R1 R2 eps true cos_bound
      = so3_relative_angle R2 R1 eps true cos_bound := by
  simp only [so3_relative_angle, so3_rotation_angle, if_true, Matrix.mul_apply,
    Matrix.transpose_apply, Fin.sum_univ_three]
  ring

/-- C8: for an orthonormal rotation `R` with translation `t`, feeding the
inverse transform `(Rᵀ, -(Rᵀ t))` to `multiply_inv_transform` with identity
child rotation and zero child translation reproduces `(R, t)` exactly. -/
theorem multiply_inv_transform_roundtrip (R : Matrix (Fin 3) (Fin 3) ℝ)
    (t : Fin 3 → ℝ) (h : R.transpose * R = 1) :
    multiply_inv_transform R.transpose (-(R.transpose.mulVec t)) 1 0 = (R, t) := by
  have h' : R * R.transpose = 1 := Matrix.mul_eq_one_comm.mpr h
  simp [multiply_inv_transform, Matrix.transpose_transpose, Matrix.mul_one,
    Matrix.mulVec_zero, Matrix.mulVec_neg, neg_neg, Matrix.mulVec_mulVec, h',
    Matrix.one_mulVec]

/-- Witness for C8 at `R = 1`, `t = ![1, 2, 3]`. -/
theorem multiply_inv_transform_roundtrip_witness :
    multiply_inv_transform (1 : Matrix (Fin 3) (Fin 3) ℝ).transpose
        (-((1 : Matrix (Fin 3) (Fin 3) ℝ).transpose.mulVec ![1, 2, 3])) 1 0
      = (1, ![1, 2, 3]) :=
  multiply_inv_transform_roundtrip 1 ![1, 2, 3] (by simp)

/-- C7: the bound validation of `acos_linear_extrapolation` rejects a bound
pair exactly when `lower > upper` or the pair is not strictly inside
`(-1, 1)`; for pairs satisfying the precondition it never errors. -/
theorem acos_invalid_bounds_iff (x lo hi : ℝ) :
    acos_linear_extrapolation_checked x (lo, hi) = none ↔
      (lo > hi ∨ ¬((-1 < lo ∧ lo < 1) ∧ (-1 < hi ∧ hi < 1))) := by
  simp only [acos_linear_extrapolation_checked]
  split_ifs with h1 h2
  · exact iff_of_true rfl (Or.inl h1)
  · refine iff_of_true rfl (Or.inr ?_)
    rintro ⟨⟨hlo1, hlo2⟩, hhi1, hhi2⟩
    rcases h2 with h | h <;> linarith
  · push_neg at h1 h2
    refine iff_of_false (by simp) ?_
    rintro (h | h)
    · linarith
    · exact h ⟨⟨by linarith [h2.1], by linarith [h2.1]⟩,
        ⟨by linarith [h2.2], by linarith [h2.2]⟩⟩

/-- C1 (code bug): `euclidean_distance` returns `w_pos * T_distance` and
discards the accumulated velocity term.  At `x_batch = x_target = 0`,
`vel_batch = ![1,0,0]`, `vel_target = 0`, `w_pos = w_vpos = 1` the code
returns `0`, while the claimed value
`w_pos * ‖Δx‖ + w_vpos * ‖Δvel‖` is `1`. -/
theorem euclidean_distance_drops_velocity :
    euclidean_distance 0 0 (some (![1, 0, 0], 0)) 1 1 = 0 ∧
      1 * norm3 ((0 : Fin 3 → ℝ) - 0) + 1 * norm3 (![1, 0, 0] - 0) = 1 := by
  constructor
  · simp [euclidean_distance, norm3]
  · simp [norm3, Real.sqrt_one]

section ExtrapolationAnalysis

lemma sqrt_term_lower :
    (140 : ℝ) / 10000 ≤ Real.sqrt (1 - (1 - 1 / 10000) * (1 - 1 / 10000)) := by
  rw [show (1 : ℝ) - (1 - 1 / 10000) * (1 - 1 / 10000) = 19999 / 100000000 by norm_num]
  rw [Real.le_sqrt (by norm_num) (by norm_num)]
  norm_num

lemma arccos_near_one_lower :
    Real.sqrt (2 / 10000) ≤ Real.arccos (1 - 1 / 10000) := by
  have hb1 : (-1 : ℝ) ≤ 1 - 1 / 10000 := by norm_num
  have hb2 : (1 : ℝ) - 1 / 10000 ≤ 1 := by norm_num
  have htn : 0 ≤ Real.arccos (1 - 1 / 10000) := Real.arccos_nonneg _
  have hcos : Real.cos (Real.arccos (1 - 1 / 10000)) = 1 - 1 / 10000 :=
    Real.cos_arccos hb1 hb2
  have hq : 1 - Real.arccos (1 - 1 / 10000) ^ 2 / 2 ≤ 1 - 1 / 10000 := by
    have h := Real.one_sub_sq_div_two_le_cos (x := Real.arccos (1 - 1 / 10000))
    rwa [hcos] at h
  have h2 : (2 : ℝ) / 10000 ≤ Real.arccos (1 - 1 / 10000) ^ 2 := by linarith
  calc Real.sqrt (2 / 10000) ≤ Real.sqrt (Real.arccos (1 - 1 / 10000) ^ 2) :=
        Real.sqrt_le_sqrt h2
    _ = Real.arccos (1 - 1 / 10000) := Real.sqrt_sq htn

lemma extrap_at_one_eq :
    _acos_linear_approximation 1 (1 - 1 / 10000)
      = Real.arccos (1 - 1 / 10000)
        - (1 / 10000) / Real.sqrt (1 - (1 - 1 / 10000) * (1 - 1 / 10000)) := by
  unfold _acos_linear_approximation _dacos_dx
  rw [show (1 : ℝ) - (1 - 1 / 10000) = 1 / 10000 by norm_num]
  ring

lemma extrap_at_one_pos : 0 < _acos_linear_approximation 1 (1 - 1 / 10000) := by
  rw [extrap_at_one_eq]
  have hs1 : (140 : ℝ) / 10000
      ≤ Real.sqrt (1 - (1 - 1 / 10000) * (1 - 1 / 10000)) := sqrt_term_lower
  have hs0 : (0 : ℝ) < Real.sqrt (1 - (1 - 1 / 10000) * (1 - 1 / 10000)) :=
    lt_of_lt_of_le (by norm_num) hs1
  have hdiv : (1 / 10000 : ℝ) / Real.sqrt (1 - (1 - 1 / 10000) * (1 - 1 / 10000))
      ≤ 1 / 140 := by
    rw [div_le_div_iff₀ hs0 (by norm_num)]
    nlinarith
  have hsq : (1 / 140 : ℝ) < Real.sqrt (2 / 10000) := by
    rw [Real.lt_sqrt (by norm_num)]
    norm_num
  have harc := arccos_near_one_lower
  linarith

lemma extrap_at_one_lt_five : _acos_linear_approximation 1 (1 - 1 / 10000) < 5 := by
  rw [extrap_at_one_eq]
  have h1 : Real.arccos (1 - 1 / 10000) ≤ Real.pi / 2 :=
    Real.arccos_le_pi_div_two.mpr (by norm_num)
  have h2 : Real.pi ≤ 4 := Real.pi_le_four
  have h3 : 0 ≤ (1 / 10000 : ℝ) / Real.sqrt (1 - (1 - 1 / 10000) * (1 - 1 / 10000)) :=
    div_nonneg (by norm_num) (Real.sqrt_nonneg _)
  linarith

lemma qra_self_default :
    quaternion_relative_angle ![1, 0, 0, 0] ![1, 0, 0, 0] (1 / 10000)
      = _acos_linear_approximation 1 (1 - 1 / 10000) := by
  unfold quaternion_relative_angle
  rw [if_pos (by norm_num)]
  norm_num [acos_linear_extrapolation]

end ExtrapolationAnalysis

/-- C4 (counterexample): under the default `cos_bound = 1e-4`, the dot
product of `[1,0,0,0]` with itself is `1 ≥ 1 - 1e-4`, so the code takes the
linear-extrapolation branch and returns a strictly positive value, not 0. -/
theorem quaternion_relative_angle_self_ne_zero :
    quaternion_relative_angle ![1, 0, 0, 0] ![1, 0, 0, 0] (1 / 10000) ≠ 0 := by
  rw [qra_self_default]
  exact (extrap_at_one_pos).ne'

/-- C4 (amended): `quaternion_relative_angle([1,0,0,0],[1,0,0,0])` is exactly
0 only when `cos_bound ≤ 0` (the `2 * arccos` branch); under the default
`cos_bound = 1e-4` it returns the linear extrapolation of `arccos` at the
upper bound `1 - 1e-4` evaluated at 1, which is strictly positive. -/
theorem quaternion_relative_angle_self_values :
    quaternion_relative_angle ![1, 0, 0, 0] ![1, 0, 0, 0] 0 = 0 ∧
      quaternion_relative_angle ![1, 0, 0, 0] ![1, 0, 0, 0] (1 / 10000)
          = _acos_linear_approximation 1 (1 - 1 / 10000) ∧
      0 < _acos_linear_approximation 1 (1 - 1 / 10000) := by
  refine ⟨?_, qra_self_default, extrap_at_one_pos⟩
  unfold quaternion_relative_angle
  rw [if_neg (by norm_num)]
  norm_num [Real.arccos_one]

lemma quaternionPart_batch :
    quaternionPart ![0, 0, 0, 1, 0, 0, 0] = ![1, 0, 0, 0] := by
  funext i
  fin_cases i <;> rfl

lemma quaternionPart_target :
    quaternionPart ![3, 4, 0, 1, 0, 0, 0] = ![1, 0, 0, 0] := by
  funext i
  fin_cases i <;> rfl

lemma positionPart_diff :
    positionPart ![0, 0, 0, 1, 0, 0, 0] - positionPart ![3, 4, 0, 1, 0, 0, 0]
      = ![-3, -4, 0] := by
  funext i
  fin_cases i <;> (show (_ : ℝ) - _ = _) <;> norm_num [positionPart]

lemma positionPart_diff_norm :
    norm3 (positionPart ![0, 0, 0, 1, 0, 0, 0]
      - positionPart ![3, 4, 0, 1, 0, 0, 0]) = 5 := by
  rw [positionPart_diff]
  unfold norm3
  norm_num
  rw [show (25 : ℝ) = 5 ^ 2 by norm_num, Real.sqrt_sq (by norm_num : (0 : ℝ) ≤ 5)]

/-- C2 (code bug): `R3S3_distance` returns
`w_pos * R_distance + w_rot * T_distance`, i.e. it weights the quaternion
angle by `w_pos` and the position norm by `w_rot` — swapped relative to the
claim.  With `w_pos = 0`, `w_rot = 1`, equal quaternions and positions `5`
apart, the code returns `5`, whereas the claimed value
`w_rot * angle + w_pos * posdist` equals the quaternion angle, which is
strictly less than 5. -/
theorem R3S3_distance_weight_swap :
    R3S3_distance ![0, 0, 0, 1, 0, 0, 0] ![3, 4, 0, 1, 0, 0, 0] 0 1 = 5 ∧
      R3S3_distance ![0, 0, 0, 1, 0, 0, 0] ![3, 4, 0, 1, 0, 0, 0] 0 1 ≠
        1 * quaternion_relative_angle (quaternionPart ![0, 0, 0, 1, 0, 0, 0])
              (quaternionPart ![3, 4, 0, 1, 0, 0, 0]) (1 / 10000)
          + 0 * norm3 (positionPart ![0, 0, 0, 1, 0, 0, 0]
              - positionPart ![3, 4, 0, 1, 0, 0, 0]) := by
  have hq : quaternion_relative_angle (quaternionPart ![0, 0, 0, 1, 0, 0, 0])
      (quaternionPart ![3, 4, 0, 1, 0, 0, 0]) (1 / 10000)
      = _acos_linear_approximation 1 (1 - 1 / 10000) := by
    rw [quaternionPart_batch, quaternionPart_target, qra_self_default]
  have hcode : R3S3_distance ![0, 0, 0, 1, 0, 0, 0] ![3, 4, 0, 1, 0, 0, 0] 0 1 = 5 := by
    simp only [R3S3_distance]
    rw [positionPart_diff_norm]
    ring
  refine ⟨hcode, ?_⟩
  rw [hcode, hq, positionPart_diff_norm]
  have h5 := extrap_at_one_lt_five
  intro hcontra
  linarith [hcontra]

lemma acos_lin_continuous (lo hi : ℝ) (h1 : lo ≤ hi) :
    Continuous fun x => acos_linear_extrapolation x (lo, hi) := by
  have hL : Continuous fun x => _acos_linear_approximation x lo := by
    unfold _acos_linear_approximation
    exact ((continuous_id.sub continuous_const).mul continuous_const).add
      continuous_const
  have hH : Continuous fun x => _acos_linear_approximation x hi := by
    unfold _acos_linear_approximation
    exact ((continuous_id.sub continuous_const).mul continuous_const).add
      continuous_const
  have hG : Continuous fun x =>
      if hi ≤ x then _acos_linear_approximation x hi else Real.arccos x := by
    refine Continuous.if_le hH Real.continuous_arccos continuous_const
      continuous_id ?_
    intro x hx
    subst hx
    simp [_acos_linear_approximation]
  have hfun : (fun x => acos_linear_extrapolation x (lo, hi))
      = fun x => if x ≤ lo then _acos_linear_approximation x lo
          else if hi ≤ x then _acos_linear_approximation x hi
          else Real.arccos x := rfl
  rw [hfun]
  refine Continuous.if_le hL hG continuous_id continuous_const ?_
  intro x hx
  rw [hx]
  by_cases hl : hi ≤ lo
  · have hlohi : lo = hi := le_antisymm h1 hl
    rw [if_pos hl, hlohi]
  · rw [if_neg hl]
    simp [_acos_linear_approximation]

/-- C6: for a valid bound pair, `acos_linear_extrapolation` agrees with
`arccos` strictly inside the bounds, equals the first-order Taylor
approximation of `arccos` anchored at the nearest bound outside them, and is
continuous (in particular has no jump) at both bounds. -/
theorem acos_linear_extrapolation_spec (lo hi : ℝ) (h1 : lo ≤ hi)
    (h2 : -1 < lo) (h3 : hi < 1) :
    (∀ x, lo < x → x < hi → acos_linear_extrapolation x (lo, hi) = Real.arccos x) ∧
    (∀ x, hi ≤ x → acos_linear_extrapolation x (lo, hi)
        = (x - hi) * (-1 / Real.sqrt (1 - hi ^ 2)) + Real.arccos hi) ∧
    (∀ x, x ≤ lo → acos_linear_extrapolation x (lo, hi)
        = (x - lo) * (-1 / Real.sqrt (1 - lo ^ 2)) + Real.arccos lo) ∧
    ContinuousAt (fun x => acos_linear_extrapolation x (lo, hi)) lo ∧
    ContinuousAt (fun x => acos_linear_extrapolation x (lo, hi)) hi := by
  have hfun : ∀ x, acos_linear_extrapolation x (lo, hi)
      = if x ≤ lo then _acos_linear_approximation x lo
        else if hi ≤ x then _acos_linear_approximation x hi
        else Real.arccos x := fun x => rfl
  refine ⟨?_, ?_, ?_, (acos_lin_continuous lo hi h1).continuousAt,
    (acos_lin_continuous lo hi h1).continuousAt⟩
  · intro x ha hb
    rw [hfun x, if_neg (by linarith), if_neg (by linarith)]
  · intro x hx
    rw [hfun x]
    by_cases hxl : x ≤ lo
    · have hlohi : lo = hi := le_antisymm h1 (le_trans hx hxl)
      have hxhi : x = hi := le_antisymm (hxl.trans h1) hx
      rw [if_pos hxl, hlohi, hxhi]
      unfold _acos_linear_approximation _dacos_dx
      rw [pow_two]
    · rw [if_neg hxl, if_pos hx]
      unfold _acos_linear_approximation _dacos_dx
      rw [pow_two]
  · intro x hx
    rw [hfun x, if_pos hx]
    unfold _acos_linear_approximation _dacos_dx
    rw [pow_two]

/-- Witness for C6 at the concrete valid bound pair `(-1/2, 1/2)`. -/
theorem acos_linear_extrapolation_spec_witness :
    (∀ x, -(1 / 2 : ℝ) < x → x < 1 / 2 →
        acos_linear_extrapolation x (-(1 / 2), 1 / 2) = Real.arccos x) ∧
    (∀ x, (1 / 2 : ℝ) ≤ x → acos_linear_extrapolation x (-(1 / 2), 1 / 2)
        = (x - 1 / 2) * (-1 / Real.sqrt (1 - (1 / 2 : ℝ) ^ 2))
          + Real.arccos (1 / 2)) ∧
    (∀ x, x ≤ -(1 / 2 : ℝ) → acos_linear_extrapolation x (-(1 / 2), 1 / 2)
        = (x - -(1 / 2)) * (-1 / Real.sqrt (1 - (-(1 / 2) : ℝ) ^ 2))
          + Real.arccos (-(1 / 2))) ∧
    ContinuousAt (fun x => acos_linear_extrapolation x (-(1 / 2), 1 / 2)) (-(1 / 2)) ∧
    ContinuousAt (fun x => acos_linear_extrapolation x (-(1 / 2), 1 / 2)) (1 / 2) :=
  acos_linear_extrapolation_spec (-(1 / 2)) (1 / 2) (by norm_num) (by norm_num)
    (by norm_num)

/-- C10: `quaternion_to_matrix` is invariant under rescaling its input by any
nonzero scalar, because every quadratic quaternion term is scaled by
`two_s = 2 / |q|^2`. -/
theorem quaternion_to_matrix_scale_invariant (q : Fin 4 → ℝ) (c : ℝ)
    (hq : q 0 * q 0 + q 1 * q 1 + q 2 * q 2 + q 3 * q 3 ≠ 0) (hc : c ≠ 0) :
    quaternion_to_matrix (fun i => c * q i) = quaternion_to_matrix q := by
  have hc2 : c * c ≠ 0 := mul_ne_zero hc hc
  simp only [quaternion_to_matrix]
  rw [show c * q 0 * (c * q 0) + c * q 1 * (c * q 1) + c * q 2 * (c * q 2)
        + c * q 3 * (c * q 3)
      = c * c * (q 0 * q 0 + q 1 * q 1 + q 2 * q 2 + q 3 * q 3) from by ring]
  have key : ∀ A : ℝ,
      2 / (c * c * (q 0 * q 0 + q 1 * q 1 + q 2 * q 2 + q 3 * q 3)) * (c * c * A)
        = 2 / (q 0 * q 0 + q 1 * q 1 + q 2 * q 2 + q 3 * q 3) * A := by
    intro A
    field_simp
    ring
  rw [show c * q 2 * (c * q 2) + c * q 3 * (c * q 3)
        = c * c * (q 2 * q 2 + q 3 * q 3) from by ring,
    show c * q 1 * (c * q 2) - c * q 3 * (c * q 0)
        = c * c * (q 1 * q 2 - q 3 * q 0) from by ring,
    show c * q 1 * (c * q 3) + c * q 2 * (c * q 0)
        = c * c * (q 1 * q 3 + q 2 * q 0) from by ring,
    show c * q 1 * (c * q 2) + c * q 3 * (c * q 0)
        = c * c * (q 1 * q 2 + q 3 * q 0) from by ring,
    show c * q 1 * (c * q 1) + c * q 3 * (c * q 3)
        = c * c * (q 1 * q 1 + q 3 * q 3) from by ring,
    show c * q 2 * (c * q 3) - c * q 1 * (c * q 0)
        = c * c * (q 2 * q 3 - q 1 * q 0) from by ring,
    show c * q 1 * (c * q 3) - c * q 2 * (c * q 0)
        = c * c * (q 1 * q 3 - q 2 * q 0) from by ring,
    show c * q 2 * (c * q 3) + c * q 1 * (c * q 0)
        = c * c * (q 2 * q 3 + q 1 * q 0) from by ring,
    show c * q 1 * (c * q 1) + c * q 2 * (c * q 2)
        = c * c * (q 1 * q 1 + q 2 * q 2) from by ring]
  simp only [key]

/-- Witness for C10 at `q = (1, 1, 1, 1)`, `c = 2`. -/
theorem quaternion_to_matrix_scale_invariant_witness :
    quaternion_to_matrix (fun i => 2 * (fun _ : Fin 4 => (1 : ℝ)) i)
      = quaternion_to_matrix (fun _ : Fin 4 => (1 : ℝ)) :=
  quaternion_to_matrix_scale_invariant (fun _ => 1) 2 (by norm_num) (by norm_num)

lemma colMin_X_zero :
    colMin (!![0, 1; 2, 3] : Matrix (Fin (1 + 1)) (Fin (1 + 1)) ℝ) 0 = 0 := by
  unfold colMin
  apply le_antisymm
  · have h := Finset.inf'_le
      (fun i => (!![0, 1; 2, 3] : Matrix (Fin (1 + 1)) (Fin (1 + 1)) ℝ) i 0)
      (Finset.mem_univ (0 : Fin (1 + 1)))
    simpa using h
  · refine Finset.le_inf' _ _ (fun i _ => ?_)
    fin_cases i <;> norm_num

lemma colMax_X_zero :
    colMax (!![0, 1; 2, 3] : Matrix (Fin (1 + 1)) (Fin (1 + 1)) ℝ) 0 = 2 := by
  unfold colMax
  apply le_antisymm
  · refine Finset.sup'_le _ _ (fun i _ => ?_)
    fin_cases i <;> norm_num
  · have h := Finset.le_sup'
      (fun i => (!![0, 1; 2, 3] : Matrix (Fin (1 + 1)) (Fin (1 + 1)) ℝ) i 0)
      (Finset.mem_univ (1 : Fin (1 + 1)))
    simpa using h

lemma globalMax_X :
    globalMax (!![0, 1; 2, 3] : Matrix (Fin (1 + 1)) (Fin (1 + 1)) ℝ) = 3 := by
  unfold globalMax
  apply le_antisymm
  · refine Finset.sup'_le _ _ (fun p _ => ?_)
    obtain ⟨i, j⟩ := p
    fin_cases i <;> fin_cases j <;> norm_num
  · have h := Finset.le_sup'
      (fun p : Fin (1 + 1) × Fin (1 + 1) =>
        (!![0, 1; 2, 3] : Matrix (Fin (1 + 1)) (Fin (1 + 1)) ℝ) p.1 p.2)
      (Finset.mem_univ ((1 : Fin (1 + 1)), (1 : Fin (1 + 1))))
    simpa using h

/-- C3 (code bug): on the torch branch with `dim` set, a fresh
`MinMaxScaler` computes `min` along the axis but — because the source
re-tests `self.max is None` instead of `self.dim is None` — caches the
GLOBAL max.  On `X = [[0,1],[2,3]]` with `dim = -2`, entry `(1,0)` scales to
`(2 - 0) / (3 - 0) = 2/3`, whereas the claimed per-axis bounds give
`(2 - 0) / (2 - 0) = 1`. -/
theorem minMaxScaler_global_max_bug :
    ((MinMaxScaler.mk none none (some ())).scale
        (!![0, 1; 2, 3] : Matrix (Fin (1 + 1)) (Fin (1 + 1)) ℝ)).2 1 0 = 2 / 3 ∧
      ((!![0, 1; 2, 3] : Matrix (Fin (1 + 1)) (Fin (1 + 1)) ℝ) 1 0
            - colMin (!![0, 1; 2, 3] : Matrix (Fin (1 + 1)) (Fin (1 + 1)) ℝ) 0)
          / (colMax (!![0, 1; 2, 3] : Matrix (Fin (1 + 1)) (Fin (1 + 1)) ℝ) 0
            - colMin (!![0, 1; 2, 3] : Matrix (Fin (1 + 1)) (Fin (1 + 1)) ℝ) 0)
        = 1 ∧
      (2 / 3 : ℝ) ≠ 1 := by
  refine ⟨?_, ?_, by norm_num⟩
  · simp only [MinMaxScaler.scale, TorchBound.eval, Matrix.of_apply]
    rw [colMin_X_zero, globalMax_X]
    norm_num
  · rw [colMin_X_zero, colMax_X_zero]
    norm_num
